import Mathlib

/-!
Verification of the emmett-expressjs-with-openapi integration layer.

This file shallowly embeds the parts of the TypeScript source that the
verified properties depend on:

* `src/internal/openapi-parser.ts` — `resolveHandlerPath`, `loadOpenApiSpec`
* `src/internal/esm-resolver.ts` (module-resolution bridge) —
  `registerHandlerModule`, the patched `Module._load`
* `src/internal/handler-importer.ts` — `importAndRegisterHandlers`
* `src/application.ts` — the `initializeHandlers` invocation logic of
  `getApplication`
* `src/middlewares/problemDetailsMiddleware.ts` —
  `defaultErrorToProblemDetailsMapping`
* `src/observability.ts` — `safeLog` and its context normalizers
* `src/etag.ts` — modelled from the spec (the file is absent from the
  provided sources; only its unit tests and callers are present)

JavaScript strings are modelled as Lean `String`s (all paths involved are
ASCII, where JS UTF-16 code-unit semantics and Lean character semantics
agree), Node's `path.posix` functions are modelled on `List Char`, module
objects are identified by `Nat` identities, and the process-wide module
cache is an insertion-ordered association list, matching the observable
behavior of a JS `Map` with string keys.
-/

instance {ε α : Type} [DecidableEq ε] [DecidableEq α] : DecidableEq (Except ε α) := fun a b =>
  match a, b with
  | Except.ok x, Except.ok y =>
    if h : x = y then Decidable.isTrue (by rw [h]) else Decidable.isFalse (by intro hc; cases hc; exact h rfl)
  | Except.error x, Except.error y =>
    if h : x = y then Decidable.isTrue (by rw [h]) else Decidable.isFalse (by intro hc; cases hc; exact h rfl)
  | Except.ok _, Except.error _ => Decidable.isFalse (by intro hc; cases hc)
  | Except.error _, Except.ok _ => Decidable.isFalse (by intro hc; cases hc)

namespace EmmettOpenApi

/-! ## JavaScript string primitives -/

/-- `hay.includes(needle)` — JS `String.prototype.includes`. -/
def listHasInfix (needle : List Char) : List Char → Bool
  | [] => needle.isEmpty
  | c :: rest => needle.isPrefixOf (c :: rest) || listHasInfix needle rest

/-- `hay.includes(needle)` lifted to `String`. -/
def hasSubstr (hay needle : String) : Bool :=
  listHasInfix needle.data hay.data

/-- JS `String.prototype.startsWith`. -/
def jsStartsWith (s pre : String) : Bool :=
  pre.data.isPrefixOf s.data

/-- JS `String.prototype.toLowerCase`, on the ASCII strings in play. -/
def jsToLower (s : String) : String :=
  String.mk (s.data.map Char.toLower)

/-! ## Node `path.posix` model

Faithful models of the Node.js `path.posix` functions the source calls:
`normalize`, `resolve`, `dirname`, `extname`, `isAbsolute`.  They follow
Node's `normalizeString` segment algorithm. -/

def headIsSlash : List Char → Bool
  | '/' :: _ => true
  | _ => false

/-- Split a character list on `'/'` (every separator produces a segment,
so leading/trailing/duplicate slashes yield empty segments). -/
def splitSlashAux : List Char → List Char → List (List Char)
  | [], acc => [acc.reverse]
  | c :: rest, acc =>
    if c = '/' then acc.reverse :: splitSlashAux rest []
    else splitSlashAux rest (c :: acc)

def splitSlash (l : List Char) : List (List Char) :=
  splitSlashAux l []

/-- Node's `normalizeString` on already-split segments: drop empty and `"."`
segments; on `".."` pop the previous segment, or (for relative paths,
`allowAboveRoot = true`) keep the `".."`; for absolute paths a `".."` at the
root is dropped. -/
def normSegsAux (allowAboveRoot : Bool) : List (List Char) → List (List Char) → List (List Char)
  | [], stack => stack.reverse
  | seg :: rest, stack =>
    if seg = [] ∨ seg = ['.'] then normSegsAux allowAboveRoot rest stack
    else if seg = ['.', '.'] then
      match stack with
      | [] =>
        if allowAboveRoot then normSegsAux allowAboveRoot rest [['.', '.']]
        else normSegsAux allowAboveRoot rest []
      | top :: stack2 =>
        if top = ['.', '.'] then
          if allowAboveRoot then normSegsAux allowAboveRoot rest (seg :: top :: stack2)
          else normSegsAux allowAboveRoot rest (top :: stack2)
        else normSegsAux allowAboveRoot rest stack2
    else normSegsAux allowAboveRoot rest (seg :: stack)

/-- Join segments with `'/'`. -/
def joinSegs : List (List Char) → List Char
  | [] => []
  | [s] => s
  | s :: s2 :: rest => s ++ '/' :: joinSegs (s2 :: rest)

/-- Node `path.posix.normalize`. -/
def posixNormalizeL (l : List Char) : List Char :=
  if l = [] then ['.']
  else
    let isAbs := headIsSlash l
    let trailing := l.getLast? = some '/'
    let body := joinSegs (normSegsAux (!isAbs) (splitSlash l) [])
    if body = [] then
      if isAbs then ['/'] else if trailing then ['.', '/'] else ['.']
    else
      let body2 := if trailing then body ++ ['/'] else body
      if isAbs then '/' :: body2 else body2

def posixNormalize (s : String) : String :=
  String.mk (posixNormalizeL s.data)

/-- Node `path.posix.resolve` argument pass: walk the arguments from last to
first, prepending `arg ++ "/"`, stopping at the first absolute one; fall
back to the process working directory `cwd` if none is absolute. -/
def resolveAccum (cwd : String) : List String → List Char → List Char × Bool
  | [], acc =>
    if cwd.data = [] then (acc, false)
    else (cwd.data ++ '/' :: acc, headIsSlash cwd.data)
  | p :: rest, acc =>
    if p.data = [] then resolveAccum cwd rest acc
    else
      let acc2 := p.data ++ '/' :: acc
      if headIsSlash p.data then (acc2, true)
      else resolveAccum cwd rest acc2

/-- Node `path.posix.resolve(paths...)`; `cwd` models `process.cwd()`,
consulted only when no argument is absolute. The argument list is given in
source order. -/
def posixResolve (cwd : String) (paths : List String) : String :=
  let raw := resolveAccum cwd paths.reverse []
  let body := joinSegs (normSegsAux (!raw.2) (splitSlash raw.1) [])
  if raw.2 then String.mk ('/' :: body)
  else if body = [] then "." else String.mk body

/-- Node `path.posix.isAbsolute`. -/
def jsIsAbsolute (s : String) : Bool :=
  headIsSlash s.data

/-- Drop trailing occurrences of `c`. -/
def dropTrailing (c : Char) (l : List Char) : List Char :=
  (l.reverse.dropWhile (fun x => x == c)).reverse

/-- Node `path.posix.dirname`. -/
def posixDirname (s : String) : String :=
  match s.data with
  | [] => "."
  | l =>
    let hasRoot := headIsSlash l
    let l1 := dropTrailing '/' l
    let r := l1.reverse
    let pre := r.takeWhile (fun c => !(c == '/'))
    if pre.length = r.length then (if hasRoot then "/" else ".")
    else
      let e := l1.length - pre.length - 1
      if e = 0 then (if hasRoot then "/" else ".")
      else if hasRoot ∧ e = 1 then "//"
      else String.mk (l1.take e)

/-- Node `path.posix.extname` on the character list: the extension of the
basename (text from its last dot), empty when the basename has no dot, when
its only dot is its first character (dotfiles), or when it is `".."`. -/
def extnameL (l : List Char) : List Char :=
  let l1 := dropTrailing '/' l
  let b := (l1.reverse.takeWhile (fun c => !(c == '/'))).reverse
  if b = ['.', '.'] then []
  else
    let afterDot := b.reverse.takeWhile (fun c => !(c == '.'))
    if afterDot.length = b.length then []
    else
      let dotIdx := b.length - afterDot.length - 1
      if dotIdx = 0 then [] else b.drop dotIdx

def extname (s : String) : String :=
  String.mk (extnameL s.data)

/-! ## `openapi-parser.ts` — `resolveHandlerPath`

```ts
const normalized = path.normalize(relativePath);
const absolutePath = path.resolve(basePath, normalized);
const resolvedBase = path.resolve(basePath);
if (!absolutePath.startsWith(resolvedBase)) throw new Error(...);
return absolutePath;
```
The extra `cwd` argument models `process.cwd()`, which Node's
`path.resolve` consults when `basePath` is relative. -/

def resolveHandlerPath (cwd basePath relativePath : String) : Except String String :=
  let normalized := posixNormalize relativePath
  let absolutePath := posixResolve cwd [basePath, normalized]
  let resolvedBase := posixResolve cwd [basePath]
  if jsStartsWith absolutePath resolvedBase then Except.ok absolutePath
  else Except.error ("Invalid handler path: \"" ++ relativePath ++ "\" escapes base directory")

/-- The spec's notion of containment: `p` is the resolved base directory
itself or a path-component descendant of it. -/
def isPathWithin (base p : String) : Bool :=
  p == base || jsStartsWith p (base ++ "/")

/-! ## `esm-resolver.ts` — the Module-Resolution Bridge

Module objects are identified by `Nat`.  The process-wide
`moduleCache : Map<string, any>` is an insertion-ordered association list:
`jsMapSet` updates an existing key in place (keeping its position) or
appends a fresh entry — the observable behavior of `Map.prototype.set`. -/

/-- `Map.prototype.get` (first — and, with `jsMapSet`, only — binding). -/
def jsMapGet : List (String × Nat) → String → Option Nat
  | [], _ => none
  | (k, v) :: rest, key => if k = key then some v else jsMapGet rest key

/-- `Map.prototype.set`. -/
def jsMapSet : List (String × Nat) → String → Nat → List (String × Nat)
  | [], key, value => [(key, value)]
  | (k, v) :: rest, key, value =>
    if k = key then (key, value) :: rest else (k, v) :: jsMapSet rest key value

/-- `registerHandlerModule(modulePath, moduleExports)`:
`moduleCache.set(modulePath, moduleExports)`. -/
def registerHandlerModule (cache : List (String × Nat)) (modulePath : String)
    (moduleExports : Nat) : List (String × Nat) :=
  jsMapSet cache modulePath moduleExports

/-- A sequence of `registerHandlerModule` calls applied in order. -/
def applyRegistrations (cache : List (String × Nat)) : List (String × Nat) → List (String × Nat)
  | [] => cache
  | (k, v) :: rest => applyRegistrations (registerHandlerModule cache k v) rest

/-- Number of entries in the cache carrying key `k`. -/
def countKey : List (String × Nat) → String → Nat
  | [], _ => 0
  | (k1, _) :: rest, k => (if k1 = k then 1 else 0) + countKey rest k

/-- Marker substring identifying the wrapped validator library's internal
loader by its caller file path. -/
def validatorMarker : String := "express-openapi-validator"

/-- Marker substring identifying a requested specifier as a handler module. -/
def handlerMarker : String := "handlers"

/-- Outcome of one call to the patched `Module._load`.  `fromCache` and
`unregistered` are produced without invoking the original loader;
`delegated` records the unchanged arguments passed on to it. -/
inductive BridgeResult where
  | fromCache (moduleExports : Nat)
  | unregistered (path : String)
  | delegated (request : String) (parentFilename : Option String) (isMain : Bool)
deriving DecidableEq, Repr

/-- `path.isAbsolute(request) ? request
     : path.resolve(path.dirname(caller), request)`. -/
def bridgeAbsolutePath (cwd caller request : String) : String :=
  if jsIsAbsolute request then request
  else posixResolve cwd [posixDirname caller, request]

/-- The patched `Module._load` installed by `activateESMResolver`.
`parentFilename` models `parent?.filename` (`none` when the parent or its
filename is missing, in which case `caller?.includes(...)` is falsy). -/
def patchedLoad (cwd : String) (cache : List (String × Nat)) (request : String)
    (parentFilename : Option String) (isMain : Bool) : BridgeResult :=
  match parentFilename with
  | some caller =>
    if hasSubstr caller validatorMarker && hasSubstr request handlerMarker then
      match jsMapGet cache (bridgeAbsolutePath cwd caller request) with
      | some m => BridgeResult.fromCache m
      | none => BridgeResult.unregistered (bridgeAbsolutePath cwd caller request)
    else BridgeResult.delegated request parentFilename isMain
  | none => BridgeResult.delegated request parentFilename isMain

/-! ## `handler-importer.ts` — `importAndRegisterHandlers`

The file system is a predicate `pathExistsFs : String → Bool` (models
`access`-based `pathExists`), and dynamic import is
`importFn : String → Except String Nat` mapping the resolved path to the
module object or to the thrown error's message (`pathToFileURL(..).href` is
injective on paths, so keying imports by path is equivalent to keying them
by file URL).  The result pairs the module cache after the call — the cache
is process-wide mutable state, so it survives a thrown error — with either
the `importedHandlers` mapping or the error message. -/

structure HandlerModuleInfo where
  moduleName : String
  relativePath : String
  absolutePath : String
  operationIds : List String
deriving DecidableEq, Repr

def moduleExtensions : List String :=
  [".js", ".mjs", ".cjs", ".ts", ".mts", ".cts"]

def firstExistingExt (pathExistsFs : String → Bool) (modulePath : String) :
    List String → String
  | [] => modulePath
  | ext :: rest =>
    if pathExistsFs (modulePath ++ ext) then modulePath ++ ext
    else firstExistingExt pathExistsFs modulePath rest

/-- `resolveModulePath`: the literal path if it exists; otherwise, when the
path already has an extension (JS truthiness of `path.extname`: any
non-empty string), the literal path; otherwise the first existing candidate
among the recognized extensions, else the literal path. -/
def resolveModulePath (pathExistsFs : String → Bool) (modulePath : String) : String :=
  if pathExistsFs modulePath then modulePath
  else if extname modulePath == "" then firstExistingExt pathExistsFs modulePath moduleExtensions
  else modulePath

/-- The message of the `Error` thrown when importing `m` fails with
underlying cause `cause`. -/
def importFailureMessage (m : HandlerModuleInfo) (cause : String) : String :=
  "Failed to import handler module \"" ++ m.moduleName ++ "\" from "
    ++ m.absolutePath ++ ": " ++ cause

/-- The `for (const module of modules)` loop.  On success the module is
registered under its computed absolute path and (when different) its
resolved path, and stored in `importedHandlers` under its module name; on
the first failure the loop stops and the whole call fails, keeping the
cache mutations made so far. -/
def importLoop (pathExistsFs : String → Bool) (importFn : String → Except String Nat) :
    List HandlerModuleInfo → List (String × Nat) → List (String × Nat) →
    List (String × Nat) × Except String (List (String × Nat))
  | [], cache, handlers => (cache, Except.ok handlers)
  | m :: rest, cache, handlers =>
    let resolvedPath := resolveModulePath pathExistsFs m.absolutePath
    match importFn resolvedPath with
    | Except.ok modv =>
      let cache1 := registerHandlerModule cache m.absolutePath modv
      let cache2 :=
        if resolvedPath == m.absolutePath then cache1
        else registerHandlerModule cache1 resolvedPath modv
      importLoop pathExistsFs importFn rest cache2 (jsMapSet handlers m.moduleName modv)
    | Except.error e => (cache, Except.error (importFailureMessage m e))

/-- `importAndRegisterHandlers(modules)` against the given initial module
cache. -/
def importAndRegisterHandlers (pathExistsFs : String → Bool)
    (importFn : String → Except String Nat) (cache : List (String × Nat))
    (modules : List HandlerModuleInfo) :
    List (String × Nat) × Except String (List (String × Nat)) :=
  importLoop pathExistsFs importFn modules cache []

/-! ## `application.ts` — `getApplication`'s `initializeHandlers` logic

The `operationHandlers` option is `string | false | { basePath?, resolver? }`
or absent.  `getApplication` runs, when `openApiValidator` is supplied:

```ts
if (openApiValidator.operationHandlers) {
  const handlersBasePath = typeof ... === 'string' ? ... : ....basePath;
  if (handlersBasePath) { ... await openApiValidator.initializeHandlers(importedHandlers); }
} else {
  if (openApiValidator.initializeHandlers) await openApiValidator.initializeHandlers();
}
```
The embedding captures which call (if any) is made. -/

inductive OperationHandlersOption where
  | notSet
  | disabled
  | byPath (basePath : String)
  | byObject (basePath : Option String)
deriving DecidableEq, Repr

/-- JS truthiness of `openApiValidator.operationHandlers` (`undefined`,
`false` and the empty string are falsy; every object is truthy). -/
def jsTruthyOperationHandlers : OperationHandlersOption → Bool
  | OperationHandlersOption.notSet => false
  | OperationHandlersOption.disabled => false
  | OperationHandlersOption.byPath s => !(s == "")
  | OperationHandlersOption.byObject _ => true

/-- `typeof operationHandlers === 'string' ? operationHandlers
     : operationHandlers.basePath` (read only in the truthy branch). -/
def handlersBasePathOf : OperationHandlersOption → Option String
  | OperationHandlersOption.byPath s => some s
  | OperationHandlersOption.byObject b => b
  | _ => none

/-- JS truthiness of `handlersBasePath` (`undefined` and `""` are falsy). -/
def jsTruthyOptString : Option String → Bool
  | some s => !(s == "")
  | none => false

/-- How `getApplication` invokes the optional `initializeHandlers`
callback. -/
inductive InitializeHandlersCall where
  | withHandlers (handlers : List (String × Nat))
  | withNoArguments
  | notCalled
deriving DecidableEq, Repr

/-- The `initializeHandlers` invocation performed by `getApplication` when
validator configuration is supplied: with the imported-handler mapping in
the auto-discovery branch, with no arguments when `operationHandlers` is
falsy, and not at all otherwise. -/
def initializeHandlersInvocation (operationHandlers : OperationHandlersOption)
    (hasInitializeHandlers : Bool) (importedHandlers : List (String × Nat)) :
    InitializeHandlersCall :=
  if jsTruthyOperationHandlers operationHandlers then
    if jsTruthyOptString (handlersBasePathOf operationHandlers) then
      if hasInitializeHandlers then InitializeHandlersCall.withHandlers importedHandlers
      else InitializeHandlersCall.notCalled
    else InitializeHandlersCall.notCalled
  else
    if hasInitializeHandlers then InitializeHandlersCall.withNoArguments
    else InitializeHandlersCall.notCalled

/-! ## `problemDetailsMiddleware.ts` — `defaultErrorToProblemDetailsMapping`

A thrown error is modelled by its `message` and its `status` / `errorCode`
fields, each `some n` when present with a numeric value and `none` when
absent or non-numeric (the code checks `typeof === 'number'`). -/

structure JsErrorLike where
  message : String
  status : Option Int := none
  errorCode : Option Int := none
deriving DecidableEq, Repr

structure ProblemDocument where
  status : Int
  detail : String
deriving DecidableEq, Repr

def defaultErrorToProblemDetailsMapping (error : JsErrorLike) : ProblemDocument :=
  let statusCode0 : Int := 500
  let statusCode1 : Int :=
    match error.status with
    | some s => if 100 ≤ s ∧ s < 600 then s else statusCode0
    | none => statusCode0
  let statusCode2 : Int :=
    match error.errorCode with
    | some c => if 100 ≤ c ∧ c < 600 then c else statusCode1
    | none => statusCode1
  ProblemDocument.mk statusCode2 error.message

/-! ## `observability.ts` — `safeLog` and its context normalizers

A JS value passed as the `data` argument.  For an `Error` instance the
`message` and `stack` fields model the non-enumerable own properties set by
the `Error` constructor, while `enumerableProps` are its enumerable own
properties — exactly the ones an object spread `{ ...error }` copies. -/

inductive JsData where
  | undef
  | nullVal
  | errObj (message stack : String) (enumerableProps : List (String × String))
  | plainObj (props : List (String × String))
  | arrObj (elems : List String)
  | primVal (v : String)
deriving DecidableEq, Repr

/-- The context object handed to the injected logger. -/
inductive LogContext where
  | emptyCtx
  | spreadCtx (props : List (String × String))
  | errKeyCtx (value : JsData)
  | dataKeyCtx (value : JsData)
deriving DecidableEq, Repr

/-- `normalizeContext` (debug/info): `undefined`/`null` become the empty
object; any non-array object — an `Error` instance included — is shallow
copied by spread; everything else is wrapped as a `data` key. -/
def normalizeContext : JsData → LogContext
  | JsData.undef => LogContext.emptyCtx
  | JsData.nullVal => LogContext.emptyCtx
  | JsData.errObj _ _ props => LogContext.spreadCtx props
  | JsData.plainObj props => LogContext.spreadCtx props
  | JsData.arrObj e => LogContext.dataKeyCtx (JsData.arrObj e)
  | JsData.primVal v => LogContext.dataKeyCtx (JsData.primVal v)

/-- `normalizeWarnContext`: like `normalizeContext` but an `Error` instance
is wrapped as an `err` key instead of being spread. -/
def normalizeWarnContext : JsData → LogContext
  | JsData.undef => LogContext.emptyCtx
  | JsData.nullVal => LogContext.emptyCtx
  | JsData.errObj m s props => LogContext.errKeyCtx (JsData.errObj m s props)
  | JsData.plainObj props => LogContext.spreadCtx props
  | JsData.arrObj e => LogContext.dataKeyCtx (JsData.arrObj e)
  | JsData.primVal v => LogContext.dataKeyCtx (JsData.primVal v)

/-- `normalizeErrorContext`: an `Error` instance, an array and a primitive
are all wrapped as `err`; a plain non-array object is spread. -/
def normalizeErrorContext : JsData → LogContext
  | JsData.undef => LogContext.emptyCtx
  | JsData.nullVal => LogContext.emptyCtx
  | JsData.errObj m s props => LogContext.errKeyCtx (JsData.errObj m s props)
  | JsData.plainObj props => LogContext.spreadCtx props
  | JsData.arrObj e => LogContext.errKeyCtx (JsData.arrObj e)
  | JsData.primVal v => LogContext.errKeyCtx (JsData.primVal v)

/-- The keys of the context object. -/
def ctxKeys : LogContext → List String
  | LogContext.emptyCtx => []
  | LogContext.spreadCtx props => props.map Prod.fst
  | LogContext.errKeyCtx _ => ["err"]
  | LogContext.dataKeyCtx _ => ["data"]

/-- `safeLog.debug(logger, msg, data)`: `some (context, message)` received
by the injected logger, `none` when no logger is injected. -/
def safeLogDebug (hasLogger : Bool) (msg : String) (data : JsData) :
    Option (LogContext × String) :=
  if hasLogger then some (normalizeContext data, msg) else none

/-- `safeLog.info(logger, msg, data)`. -/
def safeLogInfo (hasLogger : Bool) (msg : String) (data : JsData) :
    Option (LogContext × String) :=
  if hasLogger then some (normalizeContext data, msg) else none

/-- `safeLog.warn(logger, msg, data)`. -/
def safeLogWarn (hasLogger : Bool) (msg : String) (data : JsData) :
    Option (LogContext × String) :=
  if hasLogger then some (normalizeWarnContext data, msg) else none

/-- `safeLog.error(logger, msg, error)`. -/
def safeLogError (hasLogger : Bool) (msg : String) (data : JsData) :
    Option (LogContext × String) :=
  if hasLogger then some (normalizeErrorContext data, msg) else none

/-! ## `openapi-parser.ts` — `loadOpenApiSpec`

The file system is `readFileFs : String → Option String` (`none` models an
`ENOENT` failure of `readFile`, the only error the code remaps).  The two
content parsers — platform `JSON.parse` and the external `yaml` library —
are abstract parameters; a parse failure propagates uncaught. -/

inductive SpecLoadError where
  | specNotFound (path : String)
  | unsupportedFormat (ext : String)
  | parseFailure (message : String)
deriving DecidableEq, Repr

def loadOpenApiSpec {α : Type} (readFileFs : String → Option String)
    (jsonParse yamlParse : String → Except String α) (filePath : String) :
    Except SpecLoadError α :=
  match readFileFs filePath with
  | none => Except.error (SpecLoadError.specNotFound filePath)
  | some content =>
    let ext := jsToLower (extname filePath)
    if ext == ".json" then
      match jsonParse content with
      | Except.ok doc => Except.ok doc
      | Except.error e => Except.error (SpecLoadError.parseFailure e)
    else if ext == ".yaml" || ext == ".yml" then
      match yamlParse content with
      | Except.ok doc => Except.ok doc
      | Except.error e => Except.error (SpecLoadError.parseFailure e)
    else
      Except.error (SpecLoadError.unsupportedFormat ext)

/-! ## ETag codec

Modelled from the spec: the ETag codec implementation (`src/etag.ts`) is
not included in the provided sources — only its unit tests and its callers
are.  Per §4.6 of the spec, `encode(value: integer | bigint | string)`
always produces `W/"<stringified value>"`, and `parseWeak(tag)` fails with
`WrongWeakFormat` unless the tag matches
`W/"<optional leading minus><one or more digits><any trailing characters>"`,
in which case it returns the payload between the quotes.  JS decimal
stringification of a non-negative integer or bigint is modelled by
`jsNatToString`. -/

/-- The decimal digit characters JS stringification emits. -/
def digitChar : Nat → Char
  | 0 => '0' | 1 => '1' | 2 => '2' | 3 => '3' | 4 => '4'
  | 5 => '5' | 6 => '6' | 7 => '7' | 8 => '8' | 9 => '9'
  | _ => '0'

/-- Decimal digits of `n`, most significant first, prepended to `acc`;
`fuel` bounds the recursion (any `fuel` with `n < 10 ^ fuel` is enough). -/
def natDigitsAux : Nat → Nat → List Char → List Char
  | 0, _, acc => acc
  | fuel + 1, n, acc =>
    if n < 10 then digitChar n :: acc
    else natDigitsAux fuel (n / 10) (digitChar (n % 10) :: acc)

/-- JS `String(n)` for a non-negative integer or bigint. -/
def jsNatToString (n : Nat) : String :=
  String.mk (natDigitsAux (n + 1) n [])

/-- JS `String(n)` for an integer or bigint. -/
def jsIntToString (n : Int) : String :=
  if n < 0 then "-" ++ jsNatToString (-n).toNat else jsNatToString n.toNat

/-- `encode`'s input domain: `integer | bigint | string` (`intValue` covers
both numeric kinds, whose decimal stringification agrees). -/
inductive ETagInput where
  | intValue (n : Int)
  | strValue (s : String)
deriving DecidableEq, Repr

def etagStringify : ETagInput → String
  | ETagInput.intValue n => jsIntToString n
  | ETagInput.strValue s => s

/-- `toWeakETag(value)`: `W/"<stringified value>"`. -/
def toWeakETag (value : ETagInput) : String :=
  "W/\"" ++ etagStringify value ++ "\""

/-- The weak-payload shape `-?\d+.*`: after an optional leading minus, the
first character is a digit. -/
def weakPayloadShape (l : List Char) : Bool :=
  match l with
  | [] => false
  | c :: rest =>
    if c == '-' then
      match rest with
      | [] => false
      | c2 :: _ => c2.isDigit
    else c.isDigit

/-- The payload of a well-formed weak tag `W/"<payload>"`, `none` when the
tag does not match the weak pattern. -/
def weakETagPayload (tag : String) : Option String :=
  match tag.data with
  | 'W' :: '/' :: '"' :: rest =>
    if rest.getLast? == some '"' then
      if weakPayloadShape rest.dropLast then some (String.mk rest.dropLast) else none
    else none
  | _ => none

/-- `getWeakETagValue` (the spec's `parseWeak`). -/
def getWeakETagValue (tag : String) : Except String String :=
  match weakETagPayload tag with
  | some payload => Except.ok payload
  | none => Except.error "WRONG_WEAK_ETAG_FORMAT"

end EmmettOpenApi

-- sanity examples (kept as compiled checks of the path model)
example : EmmettOpenApi.posixNormalize "../a/./b/../c" = "../a/c" := by decide
example : EmmettOpenApi.posixResolve "/" ["/a/b", "../bb/x"] = "/a/bb/x" := by decide
example : EmmettOpenApi.posixDirname "/n/express-openapi-validator/x.js" = "/n/express-openapi-validator" := by decide
example : EmmettOpenApi.extname "spec.JSON" = ".JSON" := by decide
example : EmmettOpenApi.jsToLower (EmmettOpenApi.extname "spec.JSON") = ".json" := by decide
example : EmmettOpenApi.extname "handlers" = "" := by decide
example : EmmettOpenApi.extname ".gitignore" = "" := by decide
example : EmmettOpenApi.resolveHandlerPath "/" "/srv/app/handlers" "../handlers-evil/pwn"
    = Except.ok "/srv/app/handlers-evil/pwn" := by decide
example : EmmettOpenApi.resolveHandlerPath "/" "/e" "../../etc/passwd"
    = Except.ok "/etc/passwd" := by decide
example : (EmmettOpenApi.resolveHandlerPath "/" "/a/b" "../../etc/passwd"
    = Except.error "Invalid handler path: \"../../etc/passwd\" escapes base directory") := by decide
example : EmmettOpenApi.resolveHandlerPath "/" "/a/b" "sub/mod"
    = Except.ok "/a/b/sub/mod" := by decide
example : EmmettOpenApi.toWeakETag (EmmettOpenApi.ETagInput.intValue 42) = "W/\"42\"" := by decide
example : EmmettOpenApi.getWeakETagValue "W/\"42abc\"" = Except.ok "42abc" := by decide
example : EmmettOpenApi.getWeakETagValue "\"42\""
    = Except.error "WRONG_WEAK_ETAG_FORMAT" := by decide
example : EmmettOpenApi.bridgeAbsolutePath "/" "/n/express-openapi-validator/x.js" "../handlers/a"
    = "/n/handlers/a" := by decide
example : EmmettOpenApi.patchedLoad "/" [("/n/handlers/a", 7)] "../handlers/a"
    (some "/n/express-openapi-validator/x.js") false
    = EmmettOpenApi.BridgeResult.fromCache 7 := by decide

namespace EmmettOpenApi

/-! ## Shared lemmas about the module cache -/

theorem jsMapGet_jsMapSet_self (c : List (String × Nat)) (k : String) (v : Nat) :
    jsMapGet (jsMapSet c k v) k = some v := by
  induction c with
  | nil => simp [jsMapSet, jsMapGet]
  | cons e rest ih =>
    obtain ⟨k1, v1⟩ := e
    by_cases h : k1 = k
    · simp [jsMapSet, h, jsMapGet]
    · simp [jsMapSet, h, jsMapGet, ih]

theorem jsMapGet_jsMapSet_ne (c : List (String × Nat)) (k : String) (v : Nat)
    (k' : String) (h : k ≠ k') : jsMapGet (jsMapSet c k v) k' = jsMapGet c k' := by
  induction c with
  | nil => simp [jsMapSet, jsMapGet, h]
  | cons e rest ih =>
    obtain ⟨k1, v1⟩ := e
    by_cases h1 : k1 = k
    · subst h1; simp [jsMapSet, jsMapGet, h]
    · simp [jsMapSet, h1, jsMapGet, ih]

theorem jsMapGet_jsMapSet_isSome (c : List (String × Nat)) (k' k : String) (v : Nat)
    (h : (jsMapGet c k').isSome = true) :
    (jsMapGet (jsMapSet c k v) k').isSome = true := by
  by_cases hk : k = k'
  · subst hk; simp [jsMapGet_jsMapSet_self]
  · rw [jsMapGet_jsMapSet_ne _ _ _ _ hk]; exact h

theorem countKey_jsMapSet_eq (c : List (String × Nat)) (k : String) (v : Nat) :
    countKey (jsMapSet c k v) k = max (countKey c k) 1 := by
  induction c with
  | nil => simp [jsMapSet, countKey]
  | cons e rest ih =>
    obtain ⟨k1, v1⟩ := e
    by_cases h : k1 = k
    · subst h; simp [jsMapSet, countKey]
    · simp [jsMapSet, h, countKey, ih]

theorem countKey_jsMapSet_ne (c : List (String × Nat)) (k' : String) (v : Nat)
    (k : String) (h : k' ≠ k) : countKey (jsMapSet c k' v) k = countKey c k := by
  induction c with
  | nil => simp [jsMapSet, countKey, h]
  | cons e rest ih =>
    obtain ⟨k1, v1⟩ := e
    by_cases h1 : k1 = k'
    · subst h1; simp [jsMapSet, countKey, h]
    · simp [jsMapSet, h1, countKey, ih]

theorem countKey_applyRegistrations_le (regs : List (String × Nat)) :
    ∀ (c : List (String × Nat)) (k : String), countKey c k ≤ 1 →
    countKey (applyRegistrations c regs) k ≤ 1 := by
  induction regs with
  | nil => intro c k h; simpa [applyRegistrations] using h
  | cons e rest ih =>
    intro c k h
    obtain ⟨k1, v1⟩ := e
    simp only [applyRegistrations, registerHandlerModule]
    apply ih
    by_cases hk : k1 = k
    · subst hk; rw [countKey_jsMapSet_eq]; omega
    · rw [countKey_jsMapSet_ne _ _ _ _ hk]; exact h

theorem jsMapSet_idem (c : List (String × Nat)) (k : String) (v : Nat) :
    jsMapSet (jsMapSet c k v) k v = jsMapSet c k v := by
  induction c with
  | nil => simp [jsMapSet]
  | cons e rest ih =>
    obtain ⟨k1, v1⟩ := e
    by_cases h : k1 = k
    · subst h; simp [jsMapSet]
    · simp [jsMapSet, h, ih]

theorem jsMapGet_applyRegistrations_isSome (regs : List (String × Nat)) :
    ∀ (c : List (String × Nat)) (k : String), (jsMapGet c k).isSome = true →
    (jsMapGet (applyRegistrations c regs) k).isSome = true := by
  induction regs with
  | nil => intro c k h; simpa [applyRegistrations] using h
  | cons e rest ih =>
    intro c k h
    obtain ⟨k1, v1⟩ := e
    simp only [applyRegistrations, registerHandlerModule]
    exact ih _ _ (jsMapGet_jsMapSet_isSome _ _ _ _ h)

/-- Claim C8: registration in the Imported Module Cache is idempotent per
path — starting from the empty cache, any sequence of
`registerHandlerModule` calls leaves at most one entry per path;
re-registering the same (path, module) pair leaves the cache unchanged; and
no registration sequence ever removes an entry (the only other operation of
the system touching the cache, the patched loader `patchedLoad`, reads it
without modifying it). -/
theorem moduleCache_registration_properties :
    (∀ (regs : List (String × Nat)) (k : String),
      countKey (applyRegistrations [] regs) k ≤ 1)
    ∧ (∀ (cache : List (String × Nat)) (k : String) (v : Nat),
      registerHandlerModule (registerHandlerModule cache k v) k v
        = registerHandlerModule cache k v)
    ∧ (∀ (cache : List (String × Nat)) (regs : List (String × Nat)) (k : String) (v : Nat),
      jsMapGet cache k = some v →
      ∃ w, jsMapGet (applyRegistrations cache regs) k = some w) := by
  refine ⟨fun regs k => countKey_applyRegistrations_le regs [] k (by simp [countKey]),
    fun cache k v => jsMapSet_idem cache k v, ?_⟩
  intro cache regs k v h
  have hs : (jsMapGet (applyRegistrations cache regs) k).isSome = true :=
    jsMapGet_applyRegistrations_isSome regs cache k (by simp [h])
  exact Option.isSome_iff_exists.mp hs

/-- Witness for C8: the persistence conjunct applied at a concrete cache and
registration sequence (the surviving value is the re-registered one). -/
theorem moduleCache_registration_properties_witness :
    jsMapGet (applyRegistrations [("/h/a", 1)] [("/h/b", 2), ("/h/a", 3)]) "/h/a" = some 3 := by
  obtain ⟨w, hw⟩ := moduleCache_registration_properties.2.2
    [("/h/a", 1)] [("/h/b", 2), ("/h/a", 3)] "/h/a" 1 rfl
  have hw3 : w = 3 := by
    have hcomp : jsMapGet (applyRegistrations [("/h/a", 1)] [("/h/b", 2), ("/h/a", 3)]) "/h/a"
        = some 3 := by decide
    exact (Option.some.inj ((Eq.symm hw).trans hcomp))
  subst hw3
  exact hw

end EmmettOpenApi

namespace EmmettOpenApi

/-- Claim C2: once the bridge is active, a synchronous load whose caller
path contains the validator marker and whose specifier contains the handler
marker returns the cached module for the resolved absolute path when
registered — without invoking the original loader — and throws the
unregistered-handler-module error naming that path otherwise; any call not
matching both markers is delegated to the original loader with its
arguments unchanged, whatever the cache holds. -/
theorem patchedLoad_bridge_behavior (cwd : String) (cache : List (String × Nat))
    (request caller : String) (isMain : Bool) :
    (hasSubstr caller validatorMarker = true → hasSubstr request handlerMarker = true →
      ((∀ m, jsMapGet cache (bridgeAbsolutePath cwd caller request) = some m →
         patchedLoad cwd cache request (some caller) isMain = BridgeResult.fromCache m)
       ∧ (jsMapGet cache (bridgeAbsolutePath cwd caller request) = none →
         patchedLoad cwd cache request (some caller) isMain
           = BridgeResult.unregistered (bridgeAbsolutePath cwd caller request))))
    ∧ (∀ parentFilename : Option String,
        (match parentFilename with
         | some c => hasSubstr c validatorMarker && hasSubstr request handlerMarker
         | none => false) = false →
        patchedLoad cwd cache request parentFilename isMain
          = BridgeResult.delegated request parentFilename isMain) := by
  constructor
  · intro h1 h2
    constructor
    · intro m hm
      simp [patchedLoad, h1, h2, hm]
    · intro hm
      simp [patchedLoad, h1, h2, hm]
  · intro pf hpf
    cases pf with
    | none => simp [patchedLoad]
    | some c =>
      simp only [] at hpf
      simp [patchedLoad, hpf]

/-- Witness for C2: a cached handler path is served from the cache, a
missing one raises the unregistered error, and a caller without the
validator marker is delegated unchanged even though the cache holds the
path. -/
theorem patchedLoad_bridge_behavior_witness :
    patchedLoad "/" [("/n/handlers/a", 7)] "../handlers/a"
      (some "/n/express-openapi-validator/x.js") false = BridgeResult.fromCache 7
    ∧ patchedLoad "/" [] "../handlers/a"
      (some "/n/express-openapi-validator/x.js") false
        = BridgeResult.unregistered "/n/handlers/a"
    ∧ patchedLoad "/" [("/n/handlers/a", 7)] "/n/handlers/a"
      (some "/other/x.js") false
        = BridgeResult.delegated "/n/handlers/a" (some "/other/x.js") false := by
  refine ⟨?_, ?_, ?_⟩
  · exact ((patchedLoad_bridge_behavior "/" [("/n/handlers/a", 7)] "../handlers/a"
      "/n/express-openapi-validator/x.js" false).1 (by decide) (by decide)).1 7 (by decide)
  · have h := ((patchedLoad_bridge_behavior "/" [] "../handlers/a"
      "/n/express-openapi-validator/x.js" false).1 (by decide) (by decide)).2 (by decide)
    exact h.trans (by decide)
  · exact (patchedLoad_bridge_behavior "/" [("/n/handlers/a", 7)] "/n/handlers/a"
      "anything" false).2 (some "/other/x.js") (by decide)

end EmmettOpenApi

namespace EmmettOpenApi

/-! ## Shared lemmas about the importer loop -/

theorem importLoop_cache_preserves (pathExistsFs : String → Bool)
    (importFn : String → Except String Nat) (ms : List HandlerModuleInfo) :
    ∀ (cache handlers : List (String × Nat)) (k : String),
    (jsMapGet cache k).isSome = true →
    (jsMapGet (importLoop pathExistsFs importFn ms cache handlers).1 k).isSome = true := by
  induction ms with
  | nil => intro cache handlers k h; simpa [importLoop] using h
  | cons m rest ih =>
    intro cache handlers k h
    simp only [importLoop]
    cases himp : importFn (resolveModulePath pathExistsFs m.absolutePath) with
    | error e => simpa [himp] using h
    | ok modv =>
      simp only [himp]
      apply ih
      simp only [registerHandlerModule]
      split
      · exact jsMapGet_jsMapSet_isSome _ _ _ _ h
      · exact jsMapGet_jsMapSet_isSome _ _ _ _ (jsMapGet_jsMapSet_isSome _ _ _ _ h)

theorem importLoop_registers_members (pathExistsFs : String → Bool)
    (importFn : String → Except String Nat) :
    ∀ (pre mrest : List HandlerModuleInfo) (cache handlers : List (String × Nat))
      (p : HandlerModuleInfo),
    (∀ q ∈ pre, ∃ v, importFn (resolveModulePath pathExistsFs q.absolutePath) = Except.ok v) →
    p ∈ pre →
    (jsMapGet (importLoop pathExistsFs importFn (pre ++ mrest) cache handlers).1
      p.absolutePath).isSome = true := by
  intro pre
  induction pre with
  | nil => intro mrest cache handlers p _ hp; exact absurd hp (by simp)
  | cons q pre2 ih =>
    intro mrest cache handlers p hsucc hp
    obtain ⟨v, hv⟩ := hsucc q (by simp)
    simp only [List.cons_append, importLoop, hv]
    rcases List.mem_cons.mp hp with hpq | hp2
    · subst hpq
      apply importLoop_cache_preserves
      simp only [registerHandlerModule]
      split
      · simp [jsMapGet_jsMapSet_self]
      · rename_i hne
        have hne2 : resolveModulePath pathExistsFs p.absolutePath ≠ p.absolutePath := by
          simpa using hne
        rw [jsMapGet_jsMapSet_ne _ _ _ _ hne2]
        simp [jsMapGet_jsMapSet_self]
    · exact ih mrest _ _ p (fun r hr => hsucc r (by simp [hr])) hp2

theorem importLoop_failFast (pathExistsFs : String → Bool)
    (importFn : String → Except String Nat) (mfail : HandlerModuleInfo)
    (post : List HandlerModuleInfo) (cause : String)
    (hfail : importFn (resolveModulePath pathExistsFs mfail.absolutePath) = Except.error cause) :
    ∀ (pre : List HandlerModuleInfo) (cache handlers : List (String × Nat)),
    (∀ q ∈ pre, ∃ v, importFn (resolveModulePath pathExistsFs q.absolutePath) = Except.ok v) →
    (importLoop pathExistsFs importFn (pre ++ mfail :: post) cache handlers).2
      = Except.error (importFailureMessage mfail cause) := by
  intro pre
  induction pre with
  | nil =>
    intro cache handlers _
    simp [importLoop, hfail]
  | cons q pre2 ih =>
    intro cache handlers hsucc
    obtain ⟨v, hv⟩ := hsucc q (by simp)
    simp only [List.cons_append, importLoop, hv]
    exact ih _ _ (fun r hr => hsucc r (by simp [hr]))

/-- Claim C3: when the dynamic import of any module in the discovered list
throws, `importAndRegisterHandlers` fails as a whole with the
handler-import-failure error naming the failing module and wrapping the
underlying cause — the result is the error, not a partial
`importedHandlers` mapping of the earlier successful imports. -/
theorem importAndRegisterHandlers_fails_atomically (pathExistsFs : String → Bool)
    (importFn : String → Except String Nat) (cache : List (String × Nat))
    (pre : List HandlerModuleInfo) (mfail : HandlerModuleInfo)
    (post : List HandlerModuleInfo) (cause : String)
    (hsucc : ∀ q ∈ pre, ∃ v, importFn (resolveModulePath pathExistsFs q.absolutePath) = Except.ok v)
    (hfail : importFn (resolveModulePath pathExistsFs mfail.absolutePath) = Except.error cause) :
    (importAndRegisterHandlers pathExistsFs importFn cache (pre ++ mfail :: post)).2
      = Except.error (importFailureMessage mfail cause) :=
  importLoop_failFast pathExistsFs importFn mfail post cause hfail pre cache [] hsucc

/-- Witness for C3: with modules `a` (imports fine) and `b` (import throws
`boom`), the whole call fails with the message naming `b`. -/
theorem importAndRegisterHandlers_fails_atomically_witness :
    (importAndRegisterHandlers (fun _ => true)
      (fun p => if p == "/h/a" then Except.ok 1 else Except.error "boom") []
      [HandlerModuleInfo.mk "a" "a" "/h/a" [], HandlerModuleInfo.mk "b" "b" "/h/b" []]).2
      = Except.error (importFailureMessage (HandlerModuleInfo.mk "b" "b" "/h/b" []) "boom") :=
  importAndRegisterHandlers_fails_atomically (fun _ => true)
    (fun p => if p == "/h/a" then Except.ok 1 else Except.error "boom") []
    [HandlerModuleInfo.mk "a" "a" "/h/a" []] (HandlerModuleInfo.mk "b" "b" "/h/b" []) [] "boom"
    (by
      intro q hq
      simp only [List.mem_singleton] at hq
      subst hq
      exact ⟨1, by decide⟩)
    (by decide)

/-- Claim C9: a failed `importAndRegisterHandlers` call is not atomic with
respect to the process-wide module cache — when the import of one module
throws, every module imported before it is still registered in the cache
the call leaves behind, and a bridge look-up resolving to such an earlier
path still returns the cached module. -/
theorem importAndRegisterHandlers_retains_earlier_registrations
    (pathExistsFs : String → Bool) (importFn : String → Except String Nat)
    (cache : List (String × Nat)) (pre : List HandlerModuleInfo)
    (mfail : HandlerModuleInfo) (post : List HandlerModuleInfo) (cause : String)
    (p : HandlerModuleInfo)
    (hsucc : ∀ q ∈ pre, ∃ v, importFn (resolveModulePath pathExistsFs q.absolutePath) = Except.ok v)
    (hfail : importFn (resolveModulePath pathExistsFs mfail.absolutePath) = Except.error cause)
    (hp : p ∈ pre) :
    ∃ v, jsMapGet (importAndRegisterHandlers pathExistsFs importFn cache
        (pre ++ mfail :: post)).1 p.absolutePath = some v
      ∧ ∀ (cwd request caller : String) (isMain : Bool),
          hasSubstr caller validatorMarker = true →
          hasSubstr request handlerMarker = true →
          bridgeAbsolutePath cwd caller request = p.absolutePath →
          patchedLoad cwd (importAndRegisterHandlers pathExistsFs importFn cache
            (pre ++ mfail :: post)).1 request (some caller) isMain
            = BridgeResult.fromCache v := by
  have hs : (jsMapGet (importAndRegisterHandlers pathExistsFs importFn cache
      (pre ++ mfail :: post)).1 p.absolutePath).isSome = true :=
    importLoop_registers_members pathExistsFs importFn pre (mfail :: post) cache [] p hsucc hp
  obtain ⟨v, hv⟩ := Option.isSome_iff_exists.mp hs
  refine ⟨v, hv, ?_⟩
  intro cwd request caller isMain h1 h2 habs
  simp [patchedLoad, h1, h2, habs, hv]

/-- Witness for C9: module `a` is imported and registered, then importing
`b` fails; the cache left behind still serves `a`'s path, and a
marker-matching bridge call resolving to `a`'s path returns the cached
module. -/
theorem importAndRegisterHandlers_retains_earlier_registrations_witness :
    jsMapGet (importAndRegisterHandlers (fun _ => true)
        (fun p => if p == "/n/handlers/a" then Except.ok 1 else Except.error "boom") []
        [HandlerModuleInfo.mk "a" "a" "/n/handlers/a" [],
         HandlerModuleInfo.mk "b" "b" "/n/handlers/b" []]).1 "/n/handlers/a" = some 1
    ∧ patchedLoad "/" (importAndRegisterHandlers (fun _ => true)
        (fun p => if p == "/n/handlers/a" then Except.ok 1 else Except.error "boom") []
        [HandlerModuleInfo.mk "a" "a" "/n/handlers/a" [],
         HandlerModuleInfo.mk "b" "b" "/n/handlers/b" []]).1 "../handlers/a"
        (some "/n/express-openapi-validator/x.js") false
      = BridgeResult.fromCache 1 := by
  obtain ⟨v, hv, hb⟩ :=
    importAndRegisterHandlers_retains_earlier_registrations (fun _ => true)
      (fun p => if p == "/n/handlers/a" then Except.ok 1 else Except.error "boom") []
      [HandlerModuleInfo.mk "a" "a" "/n/handlers/a" []]
      (HandlerModuleInfo.mk "b" "b" "/n/handlers/b" []) [] "boom"
      (HandlerModuleInfo.mk "a" "a" "/n/handlers/a" [])
      (by
        intro q hq
        simp only [List.mem_singleton] at hq
        subst hq
        exact ⟨1, by decide⟩)
      (by decide)
      (by simp)
  have hv1 : v = 1 := by
    have hcomp : jsMapGet (importAndRegisterHandlers (fun _ => true)
        (fun p => if p == "/n/handlers/a" then Except.ok 1 else Except.error "boom") []
        [HandlerModuleInfo.mk "a" "a" "/n/handlers/a" [],
         HandlerModuleInfo.mk "b" "b" "/n/handlers/b" []]).1 "/n/handlers/a" = some 1 := by
      decide
    exact Option.some.inj ((Eq.symm hv).trans hcomp)
  subst hv1
  exact ⟨hv, hb "/" "../handlers/a" "/n/express-openapi-validator/x.js" false
    (by decide) (by decide) (by decide)⟩

end EmmettOpenApi

namespace EmmettOpenApi

/-- Claim C4: with no caller-supplied mapping applying, the default mapping
sets `detail` to the error's message and picks the status as follows — a
numeric `errorCode` in range overrides everything (even a valid `status`),
else a numeric `status` in range is used, else 500. -/
theorem defaultErrorToProblemDetailsMapping_spec (e : JsErrorLike) :
    ((defaultErrorToProblemDetailsMapping e).detail = e.message)
    ∧ (∀ c, e.errorCode = some c → 100 ≤ c → c ≤ 599 →
        (defaultErrorToProblemDetailsMapping e).status = c)
    ∧ (∀ s, e.status = some s → 100 ≤ s → s ≤ 599 →
        (∀ c, e.errorCode = some c → ¬(100 ≤ c ∧ c ≤ 599)) →
        (defaultErrorToProblemDetailsMapping e).status = s)
    ∧ ((∀ s, e.status = some s → ¬(100 ≤ s ∧ s ≤ 599)) →
       (∀ c, e.errorCode = some c → ¬(100 ≤ c ∧ c ≤ 599)) →
       (defaultErrorToProblemDetailsMapping e).status = 500) := by
  refine ⟨rfl, ?_, ?_, ?_⟩
  · intro c hc h1 h2
    have hin : (100 : Int) ≤ c ∧ c < 600 := by omega
    simp [defaultErrorToProblemDetailsMapping, hc, hin]
  · intro s hs h1 h2 hec
    have hin : (100 : Int) ≤ s ∧ s < 600 := by omega
    cases he : e.errorCode with
    | none => simp [defaultErrorToProblemDetailsMapping, hs, he, hin]
    | some c =>
      have hout : ¬((100 : Int) ≤ c ∧ c < 600) := by
        intro h
        exact hec c he ⟨h.1, by omega⟩
      simp [defaultErrorToProblemDetailsMapping, hs, he, hin, hout]
  · intro hst hec
    cases hs : e.status with
    | none =>
      cases he : e.errorCode with
      | none => simp [defaultErrorToProblemDetailsMapping, hs, he]
      | some c =>
        have hout : ¬((100 : Int) ≤ c ∧ c < 600) := by
          intro h
          exact hec c he ⟨h.1, by omega⟩
        simp [defaultErrorToProblemDetailsMapping, hs, he, hout]
    | some s =>
      have hsout : ¬((100 : Int) ≤ s ∧ s < 600) := by
        intro h
        exact hst s hs ⟨h.1, by omega⟩
      cases he : e.errorCode with
      | none => simp [defaultErrorToProblemDetailsMapping, hs, he, hsout]
      | some c =>
        have hout : ¬((100 : Int) ≤ c ∧ c < 600) := by
          intro h
          exact hec c he ⟨h.1, by omega⟩
        simp [defaultErrorToProblemDetailsMapping, hs, he, hsout, hout]

/-- Witness for C4: the claim's concrete examples — `status 404` gives 404,
`status 404` with `errorCode 403` gives 403, `status 99` gives 500, and a
plain error keeps its message as the detail with status 500. -/
theorem defaultErrorToProblemDetailsMapping_spec_witness :
    (defaultErrorToProblemDetailsMapping (JsErrorLike.mk "x" (some 404) none)).status = 404
    ∧ (defaultErrorToProblemDetailsMapping (JsErrorLike.mk "x" (some 404) (some 403))).status = 403
    ∧ (defaultErrorToProblemDetailsMapping (JsErrorLike.mk "x" (some 99) none)).status = 500
    ∧ (defaultErrorToProblemDetailsMapping (JsErrorLike.mk "boom" none none)).detail = "boom"
    ∧ (defaultErrorToProblemDetailsMapping (JsErrorLike.mk "boom" none none)).status = 500 :=
  ⟨(defaultErrorToProblemDetailsMapping_spec (JsErrorLike.mk "x" (some 404) none)).2.2.1
      404 rfl (by decide) (by decide) (fun c hc => by cases hc),
   (defaultErrorToProblemDetailsMapping_spec (JsErrorLike.mk "x" (some 404) (some 403))).2.1
      403 rfl (by decide) (by decide),
   (defaultErrorToProblemDetailsMapping_spec (JsErrorLike.mk "x" (some 99) none)).2.2.2
      (fun s hs => by cases hs; decide) (fun c hc => by cases hc),
   (defaultErrorToProblemDetailsMapping_spec (JsErrorLike.mk "boom" none none)).1,
   (defaultErrorToProblemDetailsMapping_spec (JsErrorLike.mk "boom" none none)).2.2.2
      (fun s hs => by cases hs) (fun c hc => by cases hc)⟩

/-- Claim C5 counterexample: with validator configuration whose
`operationHandlers` is an object lacking `basePath` and an
`initializeHandlers` callback present, `getApplication` does not invoke the
callback at all — in particular not with no arguments, as the claim
states. -/
theorem initializeHandlersInvocation_object_without_basePath :
    initializeHandlersInvocation (OperationHandlersOption.byObject none) true []
      = InitializeHandlersCall.notCalled
    ∧ initializeHandlersInvocation (OperationHandlersOption.byObject none) true []
      ≠ InitializeHandlersCall.withNoArguments := by
  constructor
  · rfl
  · intro h
    exact absurd h (by decide)

/-- Claim C5 (amended): when validator configuration is supplied and the
`operationHandlers` option is falsy (absent, `false`, or the empty string),
`getApplication` invokes a present `initializeHandlers` callback with no
arguments; when `operationHandlers` is an object lacking a non-empty
`basePath`, the callback is not invoked at all. -/
theorem initializeHandlersInvocation_no_basePath (ophs : OperationHandlersOption)
    (imported : List (String × Nat)) :
    (jsTruthyOperationHandlers ophs = false →
      initializeHandlersInvocation ophs true imported
        = InitializeHandlersCall.withNoArguments)
    ∧ (∀ b, ophs = OperationHandlersOption.byObject b → jsTruthyOptString b = false →
      initializeHandlersInvocation ophs true imported = InitializeHandlersCall.notCalled) := by
  constructor
  · intro h
    simp [initializeHandlersInvocation, h]
  · intro b hb hbp
    subst hb
    simp [initializeHandlersInvocation, jsTruthyOperationHandlers, handlersBasePathOf, hbp]

/-- Witness for the amended C5: the option absent yields the no-argument
call; an object without `basePath` yields no call. -/
theorem initializeHandlersInvocation_no_basePath_witness :
    initializeHandlersInvocation OperationHandlersOption.notSet true []
      = InitializeHandlersCall.withNoArguments
    ∧ initializeHandlersInvocation (OperationHandlersOption.byObject none) true []
      = InitializeHandlersCall.notCalled :=
  ⟨(initializeHandlersInvocation_no_basePath OperationHandlersOption.notSet []).1 (by decide),
   (initializeHandlersInvocation_no_basePath (OperationHandlersOption.byObject none) []).2
      none rfl (by decide)⟩

/-- Claim C10: an `Error` instance passed as the data argument of the debug
and info operations is normalized by shallow-copying its enumerable own
properties — so, `message` and `stack` being non-enumerable own properties
of an `Error`, the injected logger receives a context without them — while
the warn and error operations wrap the same `Error` as an `err` key. -/
theorem safeLog_error_instance_context (m s : String)
    (props : List (String × String)) (msg : String) :
    safeLogDebug true msg (JsData.errObj m s props)
      = some (LogContext.spreadCtx props, msg)
    ∧ safeLogInfo true msg (JsData.errObj m s props)
      = some (LogContext.spreadCtx props, msg)
    ∧ safeLogWarn true msg (JsData.errObj m s props)
      = some (LogContext.errKeyCtx (JsData.errObj m s props), msg)
    ∧ safeLogError true msg (JsData.errObj m s props)
      = some (LogContext.errKeyCtx (JsData.errObj m s props), msg)
    ∧ (¬ "message" ∈ props.map Prod.fst →
        ¬ "message" ∈ ctxKeys (normalizeContext (JsData.errObj m s props)))
    ∧ (¬ "stack" ∈ props.map Prod.fst →
        ¬ "stack" ∈ ctxKeys (normalizeContext (JsData.errObj m s props))) := by
  refine ⟨rfl, rfl, rfl, rfl, ?_, ?_⟩
  · intro h
    simpa [normalizeContext, ctxKeys] using h
  · intro h
    simpa [normalizeContext, ctxKeys] using h

/-- Witness for C10: a concrete `Error` with one enumerable own property —
the logger's debug context is the spread of that property alone, containing
neither `message` nor `stack`. -/
theorem safeLog_error_instance_context_witness :
    safeLogDebug true "hi" (JsData.errObj "boom" "trace" [("code", "E")])
      = some (LogContext.spreadCtx [("code", "E")], "hi")
    ∧ ¬ "message" ∈ ctxKeys (normalizeContext (JsData.errObj "boom" "trace" [("code", "E")]))
    ∧ ¬ "stack" ∈ ctxKeys (normalizeContext (JsData.errObj "boom" "trace" [("code", "E")])) :=
  ⟨(safeLog_error_instance_context "boom" "trace" [("code", "E")] "hi").1,
   (safeLog_error_instance_context "boom" "trace" [("code", "E")] "hi").2.2.2.2.1 (by decide),
   (safeLog_error_instance_context "boom" "trace" [("code", "E")] "hi").2.2.2.2.2 (by decide)⟩

end EmmettOpenApi

namespace EmmettOpenApi

/-- Claim C7: the spec loader dispatches on the (lower-cased) file
extension — `.json` goes to the strict JSON parser, `.yaml` and `.yml` to
the YAML parser, any other extension fails with the unsupported-format
error naming that extension — and a read of a non-existent file fails with
the not-found error carrying the requested path. -/
theorem loadOpenApiSpec_dispatch {α : Type} (readFileFs : String → Option String)
    (jsonParse yamlParse : String → Except String α) (filePath : String) :
    (readFileFs filePath = none →
      loadOpenApiSpec readFileFs jsonParse yamlParse filePath
        = Except.error (SpecLoadError.specNotFound filePath))
    ∧ (∀ content, readFileFs filePath = some content →
        (jsToLower (extname filePath) = ".json" →
          loadOpenApiSpec readFileFs jsonParse yamlParse filePath =
            match jsonParse content with
            | Except.ok doc => Except.ok doc
            | Except.error e => Except.error (SpecLoadError.parseFailure e))
        ∧ ((jsToLower (extname filePath) = ".yaml" ∨ jsToLower (extname filePath) = ".yml") →
          loadOpenApiSpec readFileFs jsonParse yamlParse filePath =
            match yamlParse content with
            | Except.ok doc => Except.ok doc
            | Except.error e => Except.error (SpecLoadError.parseFailure e))
        ∧ (jsToLower (extname filePath) ≠ ".json" →
           jsToLower (extname filePath) ≠ ".yaml" →
           jsToLower (extname filePath) ≠ ".yml" →
          loadOpenApiSpec readFileFs jsonParse yamlParse filePath
            = Except.error (SpecLoadError.unsupportedFormat (jsToLower (extname filePath))))) := by
  constructor
  · intro h
    simp [loadOpenApiSpec, h]
  · intro content hc
    refine ⟨?_, ?_, ?_⟩
    · intro hext
      simp [loadOpenApiSpec, hc, hext]
    · rintro (hext | hext) <;> simp [loadOpenApiSpec, hc, hext]
    · intro h1 h2 h3
      simp [loadOpenApiSpec, hc, h1, h2, h3]

/-- Witness for C7: a missing file yields the not-found error; an existing
file with an unrecognized extension yields the unsupported-format error
naming it; an upper-cased `.JSON` file dispatches to the JSON parser. -/
theorem loadOpenApiSpec_dispatch_witness :
    loadOpenApiSpec (fun _ => none) (fun _ => Except.ok (0 : Nat)) (fun _ => Except.ok 0)
      "spec.json" = Except.error (SpecLoadError.specNotFound "spec.json")
    ∧ loadOpenApiSpec (fun _ => some "x") (fun _ => Except.ok (0 : Nat)) (fun _ => Except.ok 0)
      "spec.txt" = Except.error (SpecLoadError.unsupportedFormat ".txt")
    ∧ loadOpenApiSpec (fun _ => some "x") (fun _ => Except.ok (7 : Nat)) (fun _ => Except.ok 0)
      "spec.JSON" = Except.ok 7 :=
  ⟨(loadOpenApiSpec_dispatch (fun _ => none) (fun _ => Except.ok (0 : Nat))
      (fun _ => Except.ok 0) "spec.json").1 rfl,
   by
    have h := ((loadOpenApiSpec_dispatch (fun _ => some "x") (fun _ => Except.ok (0 : Nat))
      (fun _ => Except.ok 0) "spec.txt").2 "x" rfl).2.2 (by decide) (by decide) (by decide)
    exact h.trans (by decide),
   ((loadOpenApiSpec_dispatch (fun _ => some "x") (fun _ => Except.ok (7 : Nat))
      (fun _ => Except.ok 0) "spec.JSON").2 "x" rfl).1 (by decide)⟩

end EmmettOpenApi

namespace EmmettOpenApi

/-! ## Shared lemmas about decimal stringification -/

theorem digitChar_isDigit (d : Nat) (hd : d < 10) : (digitChar d).isDigit = true := by
  interval_cases d <;> decide

theorem natDigitsAux_head (fuel : Nat) :
    ∀ (n : Nat) (acc : List Char), n < 10 ^ fuel → 1 ≤ fuel →
    ∃ d rest, natDigitsAux fuel n acc = d :: rest ∧ d.isDigit = true := by
  induction fuel with
  | zero => intro n acc _ h1; exact absurd h1 (by omega)
  | succ f ih =>
    intro n acc hn _
    by_cases h10 : n < 10
    · exact ⟨digitChar n, acc, by simp [natDigitsAux, h10], digitChar_isDigit n h10⟩
    · have hf : 1 ≤ f := by
        rcases Nat.eq_zero_or_pos f with hf0 | hf1
        · subst hf0
          simp [pow_succ, pow_zero] at hn
          omega
        · exact hf1
      have hdiv : n / 10 < 10 ^ f := by
        rw [Nat.div_lt_iff_lt_mul (by omega : (0 : Nat) < 10)]
        calc n < 10 ^ (f + 1) := hn
          _ = 10 ^ f * 10 := by ring
      obtain ⟨d, rest, heq, hd⟩ := ih (n / 10) (digitChar (n % 10) :: acc) hdiv hf
      exact ⟨d, rest, by simp [natDigitsAux, h10, heq], hd⟩

theorem jsNatToString_head (n : Nat) :
    ∃ d rest, (jsNatToString n).data = d :: rest ∧ d.isDigit = true := by
  have hlt : n < 10 ^ (n + 1) :=
    lt_of_lt_of_le (Nat.lt_pow_self (by omega) n)
      (Nat.pow_le_pow_right (by omega) (by omega))
  exact natDigitsAux_head (n + 1) n [] hlt (by omega)

theorem string_data_append (s t : String) : (s ++ t).data = s.data ++ t.data := by
  cases s
  cases t
  rfl

/-- Claim C6: for every non-negative integer or bigint `n`, parsing the
weak ETag produced by encoding `n` returns the decimal string of `n` —
`parseWeak(encode(n)) = toString(n)`, the encoder always producing
`W/"<stringified value>"`. -/
theorem parseWeak_encode_roundtrip (n : Int) (hn : 0 ≤ n) :
    getWeakETagValue (toWeakETag (ETagInput.intValue n)) = Except.ok (jsIntToString n) := by
  have hneg : ¬ n < 0 := by omega
  have hstr : jsIntToString n = jsNatToString n.toNat := by
    simp [jsIntToString, hneg]
  obtain ⟨d, rest, hdata, hd⟩ := jsNatToString_head n.toNat
  have hdm : (d == '-') = false := by
    have : d ≠ '-' := by
      intro hcon
      subst hcon
      exact absurd hd (by decide)
    simpa using this
  have htag : (toWeakETag (ETagInput.intValue n)).data
      = 'W' :: '/' :: '"' :: ((jsNatToString n.toNat).data ++ ['"']) := by
    simp [toWeakETag, etagStringify, hstr, string_data_append]
  have hshape : weakPayloadShape (jsNatToString n.toNat).data = true := by
    rw [hdata]
    simp [weakPayloadShape, hdm, hd]
  have hpayload : weakETagPayload (toWeakETag (ETagInput.intValue n))
      = some (String.mk (jsNatToString n.toNat).data) := by
    rw [weakETagPayload, htag]
    simp [List.getLast?_concat, List.dropLast_concat, hshape]
  rw [getWeakETagValue, hpayload]
  rw [hstr]

/-- Witness for C6: the roundtrip at `n = 42`, whose encoded form is
`W/"42"` and whose parsed payload is `42`. -/
theorem parseWeak_encode_roundtrip_witness :
    getWeakETagValue (toWeakETag (ETagInput.intValue 42)) = Except.ok (jsIntToString 42) :=
  parseWeak_encode_roundtrip 42 (by decide)

end EmmettOpenApi

namespace EmmettOpenApi

/-- Claim C1: the claim fails on the code — `resolveHandlerPath` guards
with a bare string-prefix check (`absolutePath.startsWith(resolvedBase)`,
no separator), so a `..`-escaping reference whose target shares the base
directory's name as a string prefix is accepted.  For base
`/srv/app/handlers` the reference `../handlers-evil/pwn` resolves to
`/srv/app/handlers-evil/pwn`, which is not the base nor a descendant of it,
yet the function returns it instead of failing; likewise the spec's own
test vector `../../etc/passwd` is accepted against base `/e`, resolving to
`/etc/passwd`. -/
theorem resolveHandlerPath_accepts_escaping_path :
    resolveHandlerPath "/" "/srv/app/handlers" "../handlers-evil/pwn"
      = Except.ok "/srv/app/handlers-evil/pwn"
    ∧ isPathWithin "/srv/app/handlers" "/srv/app/handlers-evil/pwn" = false
    ∧ resolveHandlerPath "/" "/e" "../../etc/passwd" = Except.ok "/etc/passwd"
    ∧ isPathWithin "/e" "/etc/passwd" = false := by
  refine ⟨by decide, by decide, by decide, by decide⟩

end EmmettOpenApi
